import Mathlib

/-!
Verification development for the Smart Email Reminder core pipeline.

The Python sources are shallowly embedded as Lean functions:
* calendar instants are modelled as integers counting seconds, so that
  Python's `timedelta.days` (which floors towards minus infinity) becomes
  `Int.fdiv (d - now) 86400` and `datetime.date()` becomes `Int.fdiv d 86400`;
* byte strings under a declared character set are modelled as lists of
  segments, each segment either decodable to some text or undecodable, so
  that `bytes.decode(cs, errors='replace')` inserts U+FFFD per undecodable
  segment while `errors='ignore'` drops it;
* the pluggable NER and date-resolution capabilities are parameters
  (`resolve : String → Option Int` and explicit candidate lists);
* `datetime.now()` reads inside the pipeline are made explicit as an
  ambient-clock argument threaded to the embedding, one value per
  invocation;
* Python's stable `list.sort(key=...)` is modelled with `List.mergeSort`
  on the boolean key order, which is the unique stable sort for a total
  preorder;
* `strftime` renderings, which no property inspects, are abstracted as
  `toString` of the instant.
-/

namespace EmailReminder

/-- Character-list prefix test, used to model Python's `in` on strings. -/
def startsWithC : List Char → List Char → Bool
  | _, [] => true
  | [], _ :: _ => false
  | c :: cs, p :: ps => c = p && startsWithC cs ps

/-- Substring occurrence on character lists: models Python's `pat in s`. -/
def hasSub : List Char → List Char → Bool
  | [], pat => pat.isEmpty
  | c :: cs, pat => startsWithC (c :: cs) pat || hasSub cs pat

/-- Substring test on strings via their character lists. -/
def strContains (s pat : String) : Bool :=
  hasSub s.data pat.data

/-- Whitespace set used by Python's `str.strip()` (ASCII portion). -/
def isSpaceC (c : Char) : Bool :=
  c = ' ' || c = '\t' || c = '\n' || c = '\r' || c = '\x0b' || c = '\x0c'

/-- Model of Python's `str.strip()` on character lists. -/
def stripChars (l : List Char) : List Char :=
  ((l.dropWhile isSpaceC).reverse.dropWhile isSpaceC).reverse

/-- `str.strip()` on `String`, via the character list. -/
def stripStr (s : String) : String :=
  String.mk (stripChars s.data)

/-- Seconds in a day; instants are integer second counts. -/
def secondsPerDay : Int := 86400

/-- `(d - now).days` in Python: whole days, floored towards minus infinity. -/
def daysUntil (d now : Int) : Int :=
  Int.fdiv (d - now) secondsPerDay

/-- `datetime.date()`: the calendar day an instant falls on. -/
def dateOf (d : Int) : Int :=
  Int.fdiv d secondsPerDay

/-- Urgency tier from `app.py find_actionable_events` (lines 419-430):
`days_until < 0 → overdue`, `<= 1 → urgent`, `<= 7 → soon`, else `upcoming`. -/
def urgencyOf (days_until : Int) : String :=
  if days_until < 0 then "overdue"
  else if days_until ≤ 1 then "urgent"
  else if days_until ≤ 7 then "soon"
  else "upcoming"

/-- Urgency colour from the same branch of `app.py` (urgent/urgent/medium/low). -/
def urgencyColorOf (days_until : Int) : String :=
  if days_until < 0 then "urgent"
  else if days_until ≤ 1 then "urgent"
  else if days_until ≤ 7 then "medium"
  else "low"

/-- Abstraction of `strftime` renderings (no claim inspects their content). -/
def strftimeOf (d : Int) : String :=
  toString d

/-- Event dictionary built by `app.py find_actionable_events`. -/
structure Event where
  original_text : String
  context : String
  parsed_date : Int
  days_until : Int
  urgency : String
  urgency_color : String
  formatted_date : String
  email_subject : String := ""
  email_from : String := ""
deriving DecidableEq, Repr

/-- A candidate mention: a spaCy entity span with its context window
(`app.py` lines 408-412). -/
structure Cand where
  entity_text : String
  context : String
deriving DecidableEq, Repr

/-- Event assembly for one resolved candidate (`app.py` lines 414-440). -/
def mkAppEvent (now : Int) (c : Cand) (d : Int) : Event :=
  let days := daysUntil d now
  { original_text := c.entity_text
    context := c.context
    parsed_date := d
    days_until := days
    urgency := urgencyOf days
    urgency_color := urgencyColorOf days
    formatted_date := strftimeOf d }

/-- `app.py find_actionable_events` (lines 394-445): resolve each candidate,
keep the resolved ones as Events, then stably sort by `parsed_date`.
`resolve` stands for `dateparser.parse` and `now` for the ambient
`datetime.now()` read at line 417. -/
def app_find_actionable_events (resolve : String → Option Int) (now : Int)
    (cands : List Cand) : List Event :=
  let events := cands.filterMap (fun c => (resolve c.entity_text).map (mkAppEvent now c))
  events.mergeSort (fun a b => decide (a.parsed_date ≤ b.parsed_date))

/-- Candidate record built by `intelligence_module.py` (lines 59-66). -/
structure IMCand where
  entity_text : String
  entity_label : String
  context_word : String
  surrounding_context : String
deriving DecidableEq, Repr

/-- Event record built by `intelligence_module.py` (lines 88-93). -/
structure IMEvent where
  event_context : String
  dt : Int
  original_text : String
  entity_label : String
deriving DecidableEq, Repr

/-- `intelligence_module.py find_actionable_events` (lines 69-99): resolve
each candidate with the future-preferring resolver, and keep it only when
`parsed_datetime > current_time`; `now` is the ambient `datetime.now()`
read at line 70.  Note the strict comparison: resolutions at or before
`now` are dropped. -/
def im_find_actionable_events (resolveFuture : String → Option Int) (now : Int)
    (cands : List IMCand) : List IMEvent :=
  cands.filterMap (fun c =>
    match resolveFuture c.entity_text with
    | some d =>
      if now < d then
        some { event_context := stripStr (c.context_word ++ " - " ++ c.surrounding_context)
               dt := d
               original_text := c.entity_text
               entity_label := c.entity_label }
      else none
    | none => none)

/-- Dedup key from `app.py` line 915: `(original_text, parsed_date.date())`. -/
def dkey (e : Event) : String × Int :=
  (e.original_text, dateOf e.parsed_date)

/-- The dedup loop of `app.py` lines 912-918, with the `seen` set made
explicit as the list of keys inserted so far. -/
def dedupAux : List (String × Int) → List Event → List Event
  | _, [] => []
  | seen, e :: rest =>
    if dkey e ∈ seen then dedupAux seen rest
    else e :: dedupAux (dkey e :: seen) rest

/-- Deduplication as run by `show_scan_page` (`app.py` lines 912-918). -/
def dedup (l : List Event) : List Event :=
  dedupAux [] l

/-- `urgency_order.get(x, 3)` from `app.py` line 920-921. -/
def urgencyOrderGet (color : String) : Nat :=
  if color = "urgent" then 0
  else if color = "medium" then 1
  else if color = "low" then 2
  else 3

/-- The sort key of `app.py` line 921: `(urgency_order.get(urgency_color, 3), parsed_date)`. -/
def rankKey (e : Event) : Nat × Int :=
  (urgencyOrderGet e.urgency_color, e.parsed_date)

/-- Lexicographic order on sort keys, as Python compares key tuples. -/
def keyLe (p q : Nat × Int) : Bool :=
  decide (p.1 < q.1 ∨ (p.1 = q.1 ∧ p.2 ≤ q.2))

/-- Boolean comparison of events by their rank keys. -/
def rankLe (a b : Event) : Bool :=
  keyLe (rankKey a) (rankKey b)

/-- The ranking step of `app.py` line 920-921: Python's stable `list.sort`
with the tuple key, modelled by the stable `mergeSort`. -/
def rankEvents (l : List Event) : List Event :=
  l.mergeSort rankLe

/-- Severity of an urgency tier as the claim describes it:
overdue/urgent ↦ 0, soon ↦ 1, upcoming ↦ 2. -/
def sevOfTier (tier : String) : Nat :=
  if tier = "overdue" ∨ tier = "urgent" then 0
  else if tier = "soon" then 1
  else if tier = "upcoming" then 2
  else 3

/-- A maximal run of payload bytes: either decodable under the part's
declared character set (to the given text) or undecodable. -/
inductive Seg
  | ok (s : List Char)
  | bad
deriving DecidableEq, Repr

/-- `bytes.decode(charset, errors='replace')`: undecodable runs become U+FFFD. -/
def decodeReplace : List Seg → List Char
  | [] => []
  | .ok s :: r => s ++ decodeReplace r
  | .bad :: r => '�' :: decodeReplace r

/-- `bytes.decode(charset, errors='ignore')`: undecodable runs are dropped. -/
def decodeIgnore : List Seg → List Char
  | [] => []
  | .ok s :: r => s ++ decodeIgnore r
  | .bad :: r => decodeIgnore r

/-- One MIME part as seen while walking a message: its content type, its
`Content-Disposition` header text (empty string when absent, as
`part.get('Content-Disposition', '')` yields), and its transfer-decoded
payload (`get_payload(decode=True)`: `none` models Python's `None`). -/
structure Part where
  contentType : String
  contentDisposition : String
  payload : Option (List Seg)
deriving DecidableEq, Repr

/-- Python truthiness of the payload (`if payload:`): `None` and `b''` are falsy. -/
def payloadTruthy : Option (List Seg) → Bool
  | none => false
  | some segs => !segs.isEmpty

/-- The multipart loop of `email_parser.py get_email_body` (lines 56-83):
first part with content type `text/plain` whose disposition does not
contain `attachment`; decode with replacement and strip.  A matching part
whose payload is falsy does not return, so the walk continues. -/
def ep_walk : List Part → List Char
  | [] => []
  | p :: rest =>
    if p.contentType = "text/plain" && !(strContains p.contentDisposition "attachment") then
      match p.payload with
      | some segs => if segs.isEmpty then ep_walk rest else stripChars (decodeReplace segs)
      | none => ep_walk rest
    else ep_walk rest

/-- The non-multipart branch of `email_parser.py get_email_body` (lines 85-103). -/
def ep_single (payload : Option (List Seg)) : List Char :=
  match payload with
  | some segs => if segs.isEmpty then [] else stripChars (decodeReplace segs)
  | none => []

/-- The multipart loop of `app.py parse_raw_email` (lines 368-379): first
`text/plain` part regardless of disposition, decoded with
`errors='ignore'` and no strip; falsy payloads leave the loop running. -/
def app_walk : List Part → List Char
  | [] => []
  | p :: rest =>
    if p.contentType = "text/plain" then
      match p.payload with
      | some segs => if segs.isEmpty then app_walk rest else decodeIgnore segs
      | none => app_walk rest
    else app_walk rest

/-- The non-multipart branch of `app.py parse_raw_email` (lines 380-388). -/
def app_single (payload : Option (List Seg)) : List Char :=
  match payload with
  | some segs => if segs.isEmpty then [] else decodeIgnore segs
  | none => []

/-- A parsed transport message as the body extractors see it: whether it is
multipart, its parts in `walk()` document order, and, for the single-part
case, its own payload. -/
structure Msg where
  multipart : Bool
  parts : List Part
  payload : Option (List Seg)
deriving DecidableEq, Repr

/-- `email_parser.py get_email_body` (lines 41-105), body as characters. -/
def get_email_body (m : Msg) : List Char :=
  if m.multipart then ep_walk m.parts else ep_single m.payload

/-- The body produced by `app.py parse_raw_email` (lines 367-388). -/
def app_email_body (m : Msg) : List Char :=
  if m.multipart then app_walk m.parts else app_single m.payload

/-- Modelled from the claim's words, for comparison with the code: take the
body from the first part passing `eligible` with a truthy payload, decode
it with `dec` and post-process with `post`; empty otherwise. -/
def specSelect (eligible : Part → Bool) (dec : List Seg → List Char)
    (post : List Char → List Char) (parts : List Part) : List Char :=
  match parts.find? (fun p => eligible p && payloadTruthy p.payload) with
  | some p => post (dec (p.payload.getD []))
  | none => []

/-- The claim's eligibility test: plain text and not an attachment. -/
def epEligible (p : Part) : Bool :=
  p.contentType = "text/plain" && !(strContains p.contentDisposition "attachment")

/-- The eligibility test `app.py` actually applies: plain text only. -/
def appEligible (p : Part) : Bool :=
  p.contentType = "text/plain"

/-- Event dictionary as `notifier.format_event_notification` reads it:
`event.get('event_context', 'Unknown event')`, `event.get('datetime')`,
`event.get('original_text', '')`. -/
structure NEvent where
  event_context : Option String
  dt : Option Int
  original_text : Option String
deriving DecidableEq, Repr

/-- The urgency label of `notifier.py` lines 222-229 (the `<= 3` and the
final branch produce the same string; the redundant test is kept). -/
def urgencyLabelOf (days : Int) : String :=
  if days = 0 then "TODAY"
  else if days = 1 then "TOMORROW"
  else if days ≤ 3 then "IN " ++ toString days ++ " DAYS"
  else "IN " ++ toString days ++ " DAYS"

/-- The message body assembly of `notifier.py` lines 242-250. -/
def notifMessage (email_subject event_context formatted_date original_text : String) : String :=
  let parts₁ : List String := if email_subject ≠ "" then ["From email: " ++ email_subject] else []
  let parts₂ := parts₁ ++ ["Event: " ++ event_context, "When: " ++ formatted_date]
  let parts₃ := parts₂ ++ (if original_text ≠ "" then ["Original: \"" ++ original_text ++ "\""] else [])
  String.intercalate "\n" parts₃

/-- `notifier.py format_event_notification` (lines 191-252).  `now` is the
ambient `datetime.now()` read at line 213; the timezone fix-up at lines
215-217 is the identity for the zone-naive instants modelled here, and the
`strftime` at line 209 is abstracted by `strftimeOf`. -/
def format_event_notification (now : Int) (event : NEvent) (email_subject : String) :
    String × String :=
  let event_context := event.event_context.getD "Unknown event"
  let original_text := event.original_text.getD ""
  match event.dt with
  | some d =>
    let formatted_date := strftimeOf d
    let urgency := urgencyLabelOf (daysUntil d now)
    ("📅 Reminder: " ++ urgency,
      notifMessage email_subject event_context formatted_date original_text)
  | none =>
    ("📅 Reminder: " ++ "",
      notifMessage email_subject event_context "Unknown date" original_text)

/-- Outcomes of the delivery backends that `send_desktop_notification`
consults: whether the plyer call raises, whether the platform is Windows,
whether the PowerShell toast raises, and its return code. -/
structure NotifyEnv where
  plyerOk : Bool
  isWindows : Bool
  toastRaises : Bool
  toastReturncodeZero : Bool
deriving DecidableEq, Repr

/-- `notifier.py send_desktop_notification` (lines 22-126): plyer success
returns `true`; on Windows a successful toast returns `true`; every other
path falls through to the console fallback, which returns `true`
unconditionally (line 110). -/
def send_desktop_notification (env : NotifyEnv) (_title _message : String) : Bool :=
  if env.plyerOk then true
  else if env.isWindows && !env.toastRaises && env.toastReturncodeZero then true
  else true

/-- An instant strictly before the evaluation instant lies a negative number
of whole days away, because `timedelta.days` floors. -/
theorem daysUntil_neg (d now : Int) (h : d < now) : daysUntil d now < 0 := by
  unfold daysUntil secondsPerDay
  rw [Int.fdiv_eq_ediv _ (by norm_num)]
  exact Int.ediv_neg' (by omega) (by norm_num)

/-- C2: the urgency tier computed by `app.py find_actionable_events` is a
pure function `urgencyOf` of the signed whole-day difference, with
`daysUntil < 0 ↦ overdue`, `0 and 1 ↦ urgent`, `2..7 ↦ soon`, `> 7 ↦
upcoming`; the boundary values 1 and 7 land in the more-urgent bucket. -/
theorem urgency_classification_buckets (du : Int) :
    (du < 0 → urgencyOf du = "overdue") ∧
    ((du = 0 ∨ du = 1) → urgencyOf du = "urgent") ∧
    ((2 ≤ du ∧ du ≤ 7) → urgencyOf du = "soon") ∧
    (7 < du → urgencyOf du = "upcoming") := by
  unfold urgencyOf
  refine ⟨?_, ?_, ?_, ?_⟩ <;> intro h <;> split_ifs <;>
    first | rfl | omega

/-- Witness for `urgency_classification_buckets` at the boundary inputs. -/
theorem urgency_classification_buckets_witness :
    urgencyOf (-1) = "overdue" ∧ urgencyOf 0 = "urgent" ∧ urgencyOf 1 = "urgent" ∧
    urgencyOf 2 = "soon" ∧ urgencyOf 7 = "soon" ∧ urgencyOf 8 = "upcoming" :=
  ⟨(urgency_classification_buckets (-1)).1 (by decide),
   (urgency_classification_buckets 0).2.1 (Or.inl rfl),
   (urgency_classification_buckets 1).2.1 (Or.inr rfl),
   (urgency_classification_buckets 2).2.2.1 (by decide),
   (urgency_classification_buckets 7).2.2.1 (by decide),
   (urgency_classification_buckets 8).2.2.2 (by decide)⟩

/-- C10: `send_desktop_notification` returns `True` on every path, whatever
the delivery backends do, so its documented `False` result is unreachable
and the caller's failure branch in `main.py` never runs. -/
theorem send_desktop_notification_always_true (env : NotifyEnv) (title message : String) :
    send_desktop_notification env title message = true := by
  unfold send_desktop_notification
  split_ifs <;> rfl

/-- Filtering the dedup output to one key: nothing survives for keys already
seen, and otherwise exactly the first input occurrence survives. -/
theorem dedupAux_filter (k : String × Int) :
    ∀ (l : List Event) (seen : List (String × Int)),
      (dedupAux seen l).filter (fun e => dkey e == k) =
        if k ∈ seen then [] else (l.filter (fun e => dkey e == k)).take 1 := by
  intro l
  induction l with
  | nil => intro seen; simp [dedupAux]
  | cons e rest ih =>
    intro seen
    by_cases hmem : dkey e ∈ seen
    · rw [show dedupAux seen (e :: rest) = dedupAux seen rest by
        simp [dedupAux, hmem]]
      rw [ih seen]
      by_cases hk : k ∈ seen
      · simp [hk]
      · have hne : (dkey e == k) = false := by
          simp only [beq_eq_false_iff_ne, ne_eq]
          intro hEq
          exact hk (hEq ▸ hmem)
        simp [hk, List.filter_cons, hne]
    · rw [show dedupAux seen (e :: rest) = e :: dedupAux (dkey e :: seen) rest by
        simp [dedupAux, hmem]]
      by_cases hke : dkey e = k
      · have hk : k ∉ seen := fun h => hmem (hke ▸ h)
        rw [List.filter_cons]
        simp only [hke, beq_self_eq_true, if_true, ite_true]
        rw [ih (k :: seen)]
        simp [hk, List.filter_cons, hke]
      · rw [List.filter_cons]
        have hne : (dkey e == k) = false := by simp [hke]
        simp only [hne, Bool.false_eq_true, if_false, ite_false]
        rw [ih (dkey e :: seen)]
        by_cases hk : k ∈ seen
        · simp [hk, List.mem_cons]
        · have hkd : k ∉ dkey e :: seen := by
            rw [List.mem_cons]
            rintro (h | h)
            · exact hke h.symm
            · exact hk h
          simp [hkd, hk, List.filter_cons, hne]

/-- The dedup output is a sublist of the input (first-seen order kept). -/
theorem dedupAux_sublist :
    ∀ (l : List Event) (seen : List (String × Int)), (dedupAux seen l).Sublist l := by
  intro l
  induction l with
  | nil => intro seen; simp [dedupAux]
  | cons e rest ih =>
    intro seen
    by_cases hmem : dkey e ∈ seen
    · rw [show dedupAux seen (e :: rest) = dedupAux seen rest by simp [dedupAux, hmem]]
      exact (ih seen).cons e
    · rw [show dedupAux seen (e :: rest) = e :: dedupAux (dkey e :: seen) rest by
        simp [dedupAux, hmem]]
      exact (ih (dkey e :: seen)).cons₂ e

/-- C4: for every dedup key, `app.py`'s deduplication keeps exactly the
first-seen Event with that key and drops all later ones, preserving the
relative order of survivors; two Events with the same mention text and the
same calendar date therefore collapse to the first. -/
theorem dedup_keeps_first :
    (∀ (l : List Event) (k : String × Int),
      (dedup l).filter (fun e => dkey e == k) = (l.filter (fun e => dkey e == k)).take 1) ∧
    (∀ l : List Event, (dedup l).Sublist l) := by
  constructor
  · intro l k
    rw [dedup, dedupAux_filter k l []]
    simp
  · intro l
    exact dedupAux_sublist l []

/-- Keys of the dedup output avoid the seen set and are mutually distinct. -/
theorem dedupAux_keys :
    ∀ (l : List Event) (seen : List (String × Int)),
      (∀ e ∈ dedupAux seen l, dkey e ∉ seen) ∧
        ((dedupAux seen l).map dkey).Nodup := by
  intro l
  induction l with
  | nil => intro seen; simp [dedupAux]
  | cons e rest ih =>
    intro seen
    by_cases hmem : dkey e ∈ seen
    · rw [show dedupAux seen (e :: rest) = dedupAux seen rest by simp [dedupAux, hmem]]
      exact ih seen
    · rw [show dedupAux seen (e :: rest) = e :: dedupAux (dkey e :: seen) rest by
        simp [dedupAux, hmem]]
      obtain ⟨havoid, hnodup⟩ := ih (dkey e :: seen)
      refine ⟨?_, ?_⟩
      · intro x hx
        rcases List.mem_cons.mp hx with hx | hx
        · exact hx ▸ hmem
        · intro hxs
          exact havoid x hx (List.mem_cons_of_mem _ hxs)
      · rw [List.map_cons, List.nodup_cons]
        refine ⟨?_, hnodup⟩
        intro hk
        obtain ⟨x, hx, hkx⟩ := List.mem_map.mp hk
        exact havoid x hx (hkx ▸ List.mem_cons_self _ _)

/-- Deduplication leaves a list alone when its keys are already distinct and
disjoint from the seen set. -/
theorem dedupAux_id_of_nodup :
    ∀ (l : List Event) (seen : List (String × Int)),
      (l.map dkey).Nodup → (∀ e ∈ l, dkey e ∉ seen) → dedupAux seen l = l := by
  intro l
  induction l with
  | nil => intro seen _ _; simp [dedupAux]
  | cons e rest ih =>
    intro seen hnodup havoid
    have hmem : dkey e ∉ seen := havoid e (List.mem_cons_self _ _)
    rw [show dedupAux seen (e :: rest) = e :: dedupAux (dkey e :: seen) rest by
      simp [dedupAux, hmem]]
    rw [List.map_cons, List.nodup_cons] at hnodup
    congr 1
    apply ih (dkey e :: seen) hnodup.2
    intro x hx
    rw [List.mem_cons]
    rintro (hx1 | hx2)
    · exact hnodup.1 (hx1 ▸ List.mem_map_of_mem dkey hx)
    · exact havoid x (List.mem_cons_of_mem _ hx) hx2

/-- C8: `app.py`'s deduplication is idempotent — running it on its own
output returns that output unchanged. -/
theorem dedup_idempotent (l : List Event) : dedup (dedup l) = dedup l := by
  rw [dedup]
  apply dedupAux_id_of_nodup
  · exact (dedupAux_keys l []).2
  · intro e _
    simp

/-- The key order is transitive. -/
theorem keyLe_trans (p q r : Nat × Int) (h1 : keyLe p q = true) (h2 : keyLe q r = true) :
    keyLe p r = true := by
  simp only [keyLe, decide_eq_true_eq] at h1 h2 ⊢
  omega

/-- The key order is total. -/
theorem keyLe_total (p q : Nat × Int) : (keyLe p q || keyLe q p) = true := by
  simp only [keyLe, Bool.or_eq_true, decide_eq_true_eq]
  omega

/-- Keys that the order strictly separates are distinct. -/
theorem keyLe_ne_of_false (p q : Nat × Int) (h : keyLe p q = false) : p ≠ q := by
  intro hpq
  subst hpq
  rw [keyLe, decide_eq_false_iff_not] at h
  exact h (Or.inr ⟨rfl, le_refl _⟩)

/-- Transitivity of the event comparison. -/
theorem rankLe_trans (a b c : Event) (h1 : rankLe a b = true) (h2 : rankLe b c = true) :
    rankLe a c = true :=
  keyLe_trans _ _ _ h1 h2

/-- Totality of the event comparison. -/
theorem rankLe_total (a b : Event) : (rankLe a b || rankLe b a) = true :=
  keyLe_total _ _

/-- Stability of `mergeSort` in filter form: for any key function that the
order separates, the sorted list restricted to one key value is exactly the
input restricted to that key value. -/
theorem filter_mergeSort_key {α β : Type} [DecidableEq β] (key : α → β) (le : α → α → Bool)
    (htrans : ∀ a b c, le a b = true → le b c = true → le a c = true)
    (htotal : ∀ a b, (le a b || le b a) = true)
    (hkey : ∀ a b, le a b = false → key a ≠ key b) :
    ∀ (l : List α) (v : β),
      (l.mergeSort le).filter (fun x => decide (key x = v)) =
        l.filter (fun x => decide (key x = v)) := by
  intro l
  induction l with
  | nil => intro v; simp
  | cons a l ih =>
    intro v
    obtain ⟨l₁, l₂, h1, h2, h3⟩ := List.mergeSort_cons htrans htotal a l
    have hfl : l₁.filter (fun x => decide (key x = v)) ++ l₂.filter (fun x => decide (key x = v))
        = l.filter (fun x => decide (key x = v)) := by
      rw [← List.filter_append, ← h2, ih]
    rw [h1, List.filter_append]
    by_cases hv : key a = v
    · have hl₁ : l₁.filter (fun x => decide (key x = v)) = [] := by
        rw [List.filter_eq_nil_iff]
        intro b hb
        have hle : le a b = false := by simpa using h3 b hb
        have hne := hkey a b hle
        simp only [decide_eq_true_eq]
        intro hbv
        exact hne (hv.trans hbv.symm)
      rw [hl₁] at hfl
      rw [List.nil_append] at hfl
      have hbeq : decide (key a = v) = true := by simp [hv]
      rw [hl₁, List.nil_append]
      simp only [List.filter_cons, hbeq, if_true]
      rw [hfl]
    · have hbeq : decide (key a = v) = false := by simp [hv]
      simp only [List.filter_cons, hbeq, Bool.false_eq_true, if_false]
      exact hfl

/-- C3: the ranker of `app.py` line 920-921 sorts any input list
non-decreasingly by the key (severity, resolvedInstant) and is stable:
restricting the output to any fixed key value reproduces the input Events
with that key in their original relative order.  The third conjunct checks
that the colour-based severity the code keys on agrees with the tier-based
severity the claim describes: overdue/urgent ↦ 0, soon ↦ 1, upcoming ↦ 2. -/
theorem rankEvents_sorted_stable :
    (∀ l : List Event, (rankEvents l).Pairwise (fun a b => rankLe a b = true)) ∧
    (∀ (l : List Event) (k : Nat × Int),
      (rankEvents l).filter (fun e => decide (rankKey e = k)) =
        l.filter (fun e => decide (rankKey e = k))) ∧
    (∀ days : Int, urgencyOrderGet (urgencyColorOf days) = sevOfTier (urgencyOf days)) := by
  refine ⟨?_, ?_, ?_⟩
  · intro l
    exact List.sorted_mergeSort rankLe_trans rankLe_total l
  · intro l k
    exact filter_mergeSort_key rankKey rankLe rankLe_trans rankLe_total
      (fun a b h => keyLe_ne_of_false _ _ h) l k
  · intro days
    unfold urgencyColorOf urgencyOf
    split_ifs <;> decide

/-- C1 (amended): a candidate resolving strictly before the evaluation
instant is still turned into an Event by `app.py find_actionable_events`,
with urgency tier `overdue`; `intelligence_module.py
find_actionable_events`, by contrast, drops every candidate whose
resolution is not strictly in the future, because of its
`parsed_datetime > current_time` guard. -/
theorem past_resolution_divergence (resolve rf : String → Option Int) (now d : Int)
    (c : Cand) (cf : IMCand)
    (hr : resolve c.entity_text = some d) (hd : d < now)
    (hrf : rf cf.entity_text = some d) :
    app_find_actionable_events resolve now [c] = [mkAppEvent now c d] ∧
    (mkAppEvent now c d).urgency = "overdue" ∧
    im_find_actionable_events rf now [cf] = [] := by
  refine ⟨?_, ?_, ?_⟩
  · simp [app_find_actionable_events, hr, List.mergeSort]
  · have hneg := daysUntil_neg d now hd
    simp [mkAppEvent, urgencyOf, hneg]
  · have hnot : ¬ (now < d) := by omega
    simp [im_find_actionable_events, hrf, hnot]

/-- Witness for `past_resolution_divergence`: a mention resolving three days
before the evaluation instant. -/
theorem past_resolution_divergence_witness :
    app_find_actionable_events (fun _ => some 0) 259200 [⟨"yesterday", "report due yesterday"⟩]
      = [mkAppEvent 259200 ⟨"yesterday", "report due yesterday"⟩ 0] ∧
    (mkAppEvent 259200 ⟨"yesterday", "report due yesterday"⟩ 0).urgency = "overdue" ∧
    im_find_actionable_events (fun _ => some 0) 259200
      [⟨"yesterday", "DATE", "due", "due yesterday"⟩] = [] :=
  past_resolution_divergence (fun _ => some 0) (fun _ => some 0) 259200 0
    ⟨"yesterday", "report due yesterday"⟩ ⟨"yesterday", "DATE", "due", "due yesterday"⟩
    rfl (by decide) rfl

/-- C1 counterexample: the original claim fails on
`intelligence_module.py find_actionable_events`.  Here the resolution
capability succeeds and returns instant 0, three days before the
evaluation instant 259200, yet the pipeline emits no Event at all. -/
theorem im_drops_past_resolution :
    (fun _ : String => some (0 : Int)) "yesterday" = some 0 ∧
    (0 : Int) < 259200 ∧
    im_find_actionable_events (fun _ => some 0) 259200
      [⟨"yesterday", "DATE", "due", "due yesterday"⟩] = [] := by
  refine ⟨rfl, by decide, ?_⟩
  simp [im_find_actionable_events]

/-- C5: the per-Event computation of `app.py find_actionable_events` reads
the ambient clock (`datetime.now()` at line 417; the function takes no
evaluation-time parameter at all).  Made explicit as an argument, the same
text and resolver output different Event sets at two clock readings, so
repeated invocations are not deterministic. -/
theorem ambient_clock_changes_output :
    app_find_actionable_events (fun _ => some 0) 0 [⟨"October 20th", "due October 20th"⟩] ≠
    app_find_actionable_events (fun _ => some 0) 864000 [⟨"October 20th", "due October 20th"⟩] := by
  have h1 : app_find_actionable_events (fun _ => some 0) 0 [⟨"October 20th", "due October 20th"⟩]
      = [mkAppEvent 0 ⟨"October 20th", "due October 20th"⟩ 0] := by
    simp [app_find_actionable_events, List.mergeSort]
  have h2 : app_find_actionable_events (fun _ => some 0) 864000
      [⟨"October 20th", "due October 20th"⟩]
      = [mkAppEvent 864000 ⟨"October 20th", "due October 20th"⟩ 0] := by
    simp [app_find_actionable_events, List.mergeSort]
  rw [h1, h2]
  decide

/-- C6 counterexample: `app.py parse_raw_email` never looks at the
disposition.  On a multipart message whose only part is a plain-text
attachment, the claim demands an empty body (no plain-text non-attachment
part exists), but the code returns the attachment's text. -/
theorem app_body_from_attachment :
    strContains "attachment; filename=notes.txt" "attachment" = true ∧
    app_email_body
      ⟨true, [⟨"text/plain", "attachment; filename=notes.txt", some [Seg.ok "ATT".data]⟩], none⟩
      = "ATT".data ∧
    app_email_body
      ⟨true, [⟨"text/plain", "attachment; filename=notes.txt", some [Seg.ok "ATT".data]⟩], none⟩
      ≠ [] := by
  refine ⟨by decide, ?_, ?_⟩ <;> decide

/-- C6 (amended): `email_parser.get_email_body` takes the body from the
first plain-text part whose disposition does not contain `attachment` and
whose payload is present and non-empty (eligible parts with falsy payloads
are skipped, and when no part qualifies the body is empty);
`app.parse_raw_email` runs the same first-match scan but ignores the
disposition entirely, so a plain-text attachment part can supply its body. -/
theorem body_selection_characterized :
    (∀ parts : List Part, ep_walk parts = specSelect epEligible decodeReplace stripChars parts) ∧
    (∀ parts : List Part, app_walk parts = specSelect appEligible decodeIgnore id parts) ∧
    (∀ m : Msg, m.multipart = true → (∀ p ∈ m.parts, epEligible p = false) →
      get_email_body m = []) := by
  have hep : ∀ parts : List Part,
      ep_walk parts = specSelect epEligible decodeReplace stripChars parts := by
    intro parts
    induction parts with
    | nil => simp [ep_walk, specSelect]
    | cons p rest ih =>
      by_cases hel : epEligible p = true
      · rw [show ep_walk (p :: rest)
            = (if p.contentType = "text/plain" && !(strContains p.contentDisposition "attachment")
               then match p.payload with
                 | some segs => if segs.isEmpty then ep_walk rest
                     else stripChars (decodeReplace segs)
                 | none => ep_walk rest
               else ep_walk rest) from rfl]
        rw [show (p.contentType = "text/plain"
              && !(strContains p.contentDisposition "attachment")) = true from hel]
        cases hpl : p.payload with
        | none =>
          simp only [if_true, ite_true]
          rw [ih, specSelect, specSelect, List.find?_cons]
          rw [show (epEligible p && payloadTruthy p.payload) = false by
            rw [hpl]; simp [payloadTruthy]]
        | some segs =>
          by_cases hemp : segs.isEmpty
          · simp only [if_true, ite_true, hemp]
            rw [ih, specSelect, specSelect, List.find?_cons]
            rw [show (epEligible p && payloadTruthy p.payload) = false by
              rw [hpl]; simp [payloadTruthy, hemp]]
          · simp only [if_true, ite_true, hemp, Bool.false_eq_true, ite_false]
            rw [specSelect, List.find?_cons]
            rw [show (epEligible p && payloadTruthy p.payload) = true by
              rw [hpl]; simp [payloadTruthy, hel, hemp]]
            simp [hpl]
      · rw [show ep_walk (p :: rest) = ep_walk rest by
          rw [ep_walk]
          rw [show (p.contentType = "text/plain"
                && !(strContains p.contentDisposition "attachment")) = false by
            simpa [epEligible] using hel]
          simp]
        rw [ih, specSelect, specSelect, List.find?_cons]
        rw [show (epEligible p && payloadTruthy p.payload) = false by simp [hel]]
  have happ : ∀ parts : List Part,
      app_walk parts = specSelect appEligible decodeIgnore id parts := by
    intro parts
    induction parts with
    | nil => simp [app_walk, specSelect]
    | cons p rest ih =>
      by_cases hel : appEligible p = true
      · have hprop : p.contentType = "text/plain" := by simpa [appEligible] using hel
        rw [show app_walk (p :: rest)
            = (if p.contentType = "text/plain"
               then match p.payload with
                 | some segs => if segs.isEmpty then app_walk rest else decodeIgnore segs
                 | none => app_walk rest
               else app_walk rest) from rfl]
        rw [if_pos hprop]
        cases hpl : p.payload with
        | none =>
          rw [ih, specSelect, specSelect, List.find?_cons]
          rw [show (appEligible p && payloadTruthy p.payload) = false by
            rw [hpl]; simp [payloadTruthy]]
        | some segs =>
          by_cases hemp : segs.isEmpty
          · simp only [hemp, ite_true]
            rw [ih, specSelect, specSelect, List.find?_cons]
            rw [show (appEligible p && payloadTruthy p.payload) = false by
              rw [hpl]; simp [payloadTruthy, hemp]]
          · simp only [hemp, Bool.false_eq_true, ite_false]
            rw [specSelect, List.find?_cons]
            rw [show (appEligible p && payloadTruthy p.payload) = true by
              rw [hpl]; simp [payloadTruthy, hel, hemp]]
            simp [hpl]
      · have hprop : ¬ p.contentType = "text/plain" := by simpa [appEligible] using hel
        rw [show app_walk (p :: rest)
            = (if p.contentType = "text/plain"
               then match p.payload with
                 | some segs => if segs.isEmpty then app_walk rest else decodeIgnore segs
                 | none => app_walk rest
               else app_walk rest) from rfl]
        rw [if_neg hprop]
        rw [ih, specSelect, specSelect, List.find?_cons]
        rw [show (appEligible p && payloadTruthy p.payload) = false by simp [hel]]
  refine ⟨hep, happ, ?_⟩
  intro m hm hnone
  rw [get_email_body, if_pos hm, hep m.parts, specSelect]
  rw [show m.parts.find? (fun p => epEligible p && payloadTruthy p.payload) = none by
    rw [List.find?_eq_none]
    intro p hp
    simp [hnone p hp]]

/-- Witness for `body_selection_characterized`: a multipart message whose
only parts are an HTML part and a plain-text attachment decodes to an
empty body under `email_parser.get_email_body`. -/
theorem body_selection_characterized_witness :
    get_email_body
      ⟨true, [⟨"text/html", "", some [Seg.ok "h".data]⟩,
              ⟨"text/plain", "attachment; filename=a.txt", some [Seg.ok "x".data]⟩], none⟩
      = [] :=
  body_selection_characterized.2.2
    ⟨true, [⟨"text/html", "", some [Seg.ok "h".data]⟩,
            ⟨"text/plain", "attachment; filename=a.txt", some [Seg.ok "x".data]⟩], none⟩
    rfl (by decide)

/-- Members survive `dropWhile` when the predicate rejects them. -/
theorem mem_dropWhile_of_neg {α : Type} (p : α → Bool) (c : α) :
    ∀ l : List α, c ∈ l → p c = false → c ∈ l.dropWhile p := by
  intro l
  induction l with
  | nil => simp
  | cons a l ih =>
    intro hc hp
    rw [List.dropWhile_cons]
    by_cases ha : p a = true
    · simp only [ha, if_true, ite_true]
      apply ih ?_ hp
      rcases List.mem_cons.mp hc with hca | hcl
      · exfalso
        rw [hca] at hp
        rw [hp] at ha
        exact Bool.false_ne_true ha
      · exact hcl
    · simp only [Bool.not_eq_true] at ha
      simp only [ha, Bool.false_eq_true, if_false, ite_false]
      exact hc

/-- Non-whitespace characters survive the strip. -/
theorem mem_stripChars (c : Char) (l : List Char) (hc : c ∈ l) (hp : isSpaceC c = false) :
    c ∈ stripChars l := by
  unfold stripChars
  rw [List.mem_reverse]
  exact mem_dropWhile_of_neg isSpaceC c _ (List.mem_reverse.mpr
    (mem_dropWhile_of_neg isSpaceC c l hc hp)) hp

/-- Replacement decoding marks every undecodable run with U+FFFD. -/
theorem mem_decodeReplace_of_bad :
    ∀ segs : List Seg, Seg.bad ∈ segs → '�' ∈ decodeReplace segs := by
  intro segs
  induction segs with
  | nil => simp
  | cons s rest ih =>
    intro hb
    cases s with
    | ok t =>
      rw [show decodeReplace (Seg.ok t :: rest) = t ++ decodeReplace rest from rfl]
      rcases List.mem_cons.mp hb with h | h
      · exact absurd h (by simp)
      · exact List.mem_append_right t (ih h)
    | bad =>
      rw [show decodeReplace (Seg.bad :: rest) = '�' :: decodeReplace rest from rfl]
      exact List.mem_cons_self _ _

/-- C7 counterexample: `app.py parse_raw_email` decodes with
`errors='ignore'`, so a single-part body that is undecodable in full
yields an *empty* body with no replacement character, where the claim
demands a non-empty body containing replacement characters. -/
theorem app_ignore_drops_undecodable :
    Msg.multipart ⟨false, [], some [Seg.bad]⟩ = false ∧
    Seg.bad ∈ [Seg.bad] ∧
    app_email_body ⟨false, [], some [Seg.bad]⟩ = [] ∧
    ¬ '�' ∈ app_email_body ⟨false, [], some [Seg.bad]⟩ := by
  decide

/-- C7 (amended): for a non-multipart message with undecodable payload
runs, `email_parser.get_email_body` replaces them (the body is non-empty
and contains U+FFFD, and nothing is raised), while `app.parse_raw_email`
silently drops each undecodable run. -/
theorem undecodable_body_handling (segs : List Seg) (hbad : Seg.bad ∈ segs) :
    '�' ∈ get_email_body ⟨false, [], some segs⟩ ∧
    get_email_body ⟨false, [], some segs⟩ ≠ [] ∧
    app_email_body ⟨false, [], some (Seg.bad :: segs)⟩ =
      app_email_body ⟨false, [], some segs⟩ := by
  have hne : segs.isEmpty = false := by
    cases segs with
    | nil => exact absurd hbad (by simp)
    | cons s rest => rfl
  have hbody : get_email_body ⟨false, [], some segs⟩ = stripChars (decodeReplace segs) := by
    rw [get_email_body]
    simp only [Bool.false_eq_true, if_false, ite_false]
    rw [ep_single]
    simp [hne]
  have hmem : '�' ∈ stripChars (decodeReplace segs) :=
    mem_stripChars _ _ (mem_decodeReplace_of_bad segs hbad) (by decide)
  refine ⟨?_, ?_, ?_⟩
  · rw [hbody]; exact hmem
  · rw [hbody]; exact List.ne_nil_of_mem hmem
  · rw [app_email_body, app_email_body]
    simp only [Bool.false_eq_true, if_false, ite_false]
    rw [app_single, app_single]
    simp [hne, decodeIgnore]

/-- Witness for `undecodable_body_handling`: a payload that is one
undecodable run. -/
theorem undecodable_body_handling_witness :
    '�' ∈ get_email_body ⟨false, [], some [Seg.bad]⟩ ∧
    get_email_body ⟨false, [], some [Seg.bad]⟩ ≠ [] ∧
    app_email_body ⟨false, [], some (Seg.bad :: [Seg.bad])⟩ =
      app_email_body ⟨false, [], some [Seg.bad]⟩ :=
  undecodable_body_handling [Seg.bad] (by decide)

/-- C9 counterexample: an event three days overdue is titled
`IN -3 DAYS`; no `OVERDUE` label exists anywhere in
`format_event_notification`. -/
theorem no_overdue_label :
    daysUntil (-259200) 0 < 0 ∧
    (format_event_notification 0 ⟨some "meeting", some (-259200), some "last Friday"⟩ "Subj").1
      = "📅 Reminder: IN -3 DAYS" ∧
    strContains
      (format_event_notification 0 ⟨some "meeting", some (-259200), some "last Friday"⟩ "Subj").1
      "OVERDUE" = false := by
  refine ⟨by decide, ?_, ?_⟩ <;> decide

/-- C9 (amended): the title produced by `format_event_notification` embeds
exactly one of `TODAY`, `TOMORROW` or `IN N DAYS`, where `N` is the signed
whole-day difference — negative values render as e.g. `IN -3 DAYS`, and no
`OVERDUE` label exists; when the resolved instant is absent the function
still returns, with an empty urgency label in the title and the
placeholder `Unknown date` in the body. -/
theorem format_event_notification_title (now : Int) (ev : NEvent) (subj : String) :
    (∀ d, ev.dt = some d →
      (format_event_notification now ev subj).1
        = "📅 Reminder: " ++ urgencyLabelOf (daysUntil d now) ∧
      (urgencyLabelOf (daysUntil d now) = "TODAY" ∨
       urgencyLabelOf (daysUntil d now) = "TOMORROW" ∨
       urgencyLabelOf (daysUntil d now) = "IN " ++ toString (daysUntil d now) ++ " DAYS")) ∧
    (ev.dt = none →
      (format_event_notification now ev subj).1 = "📅 Reminder: " ∧
      (format_event_notification now ev subj).2
        = notifMessage subj (ev.event_context.getD "Unknown event") "Unknown date"
            (ev.original_text.getD "")) := by
  constructor
  · intro d hd
    constructor
    · rw [format_event_notification, hd]
    · rw [urgencyLabelOf]
      split_ifs <;> simp
  · intro hd
    rw [format_event_notification, hd]
    exact ⟨rfl, rfl⟩

/-- Witness for `format_event_notification_title`: the dateless branch at a
concrete event. -/
theorem format_event_notification_title_witness :
    (format_event_notification 0 ⟨some "meeting", none, some "Oct 1"⟩ "Subj").1
      = "📅 Reminder: " ∧
    (format_event_notification 0 ⟨some "meeting", none, some "Oct 1"⟩ "Subj").2
      = notifMessage "Subj" "meeting" "Unknown date" "Oct 1" :=
  (format_event_notification_title 0 ⟨some "meeting", none, some "Oct 1"⟩ "Subj").2 rfl

end EmailReminder
